import Mathlib

/-!
Verification of the pygraphy schema core (`pygraphy/types/schema.py`):
the type registration and validation algorithm (`SchemaType.register_types`,
`SchemaType.register_fields_type`, `SchemaType.validate`) and the execution
engine (`Schema.execute`).

Python type annotations are identified by natural-number ids; an environment
(`List Kind`) maps each id to the shape of the annotation it denotes.  Two
annotations that compare equal in Python (`ptype in cls.validated_type` uses
`==`, which is reference identity for declared type classes) share one id.
-/

namespace Pygraphy

/-- Modelled from the spec (the Field/ResolverField descriptor classes of
`pygraphy/types/field.py` are not part of the given source): a Field carries a
declared type `ftype`; a ResolverField additionally owns an ordered mapping of
parameter name to parameter type, of which only the type ids matter here. -/
structure FieldD where
  ftype : Nat
  isResolver : Bool
  params : List Nat
deriving DecidableEq

/-- Modelled from the spec (`pygraphy/utils.py` and the type metaclasses in
`pygraphy/types/` are not part of the given source): a raw annotation is
classified as exactly one of bare scalar, Enum, Object, Union, Input,
Interface, "optional-wrapped T", or "list-wrapped T"; optional and list
wrappers are transparent containers holding one inner type argument each,
and typing-level unions hold N type arguments.  `object`, `namedUnion`,
`input`, `interface` and `enum` stand for classes whose metaclass is
`ObjectType`, `UnionType`, `InputType`, `InterfaceType` and `EnumType`
respectively; `interface` also carries its currently known implementing
subclasses (`__subclasses__()`). -/
inductive Kind where
  | object (fields : List FieldD)
  | optional (inner : Nat)
  | list (inner : Nat)
  | typingUnion (args : List Nat)
  | namedUnion (members : List Nat)
  | input (fields : List FieldD)
  | interface (fields : List FieldD) (subclasses : List Nat)
  | enum
  | scalar
deriving DecidableEq

/-- Look an annotation id up in the environment; ids outside the environment
denote bare scalars (basic types, which `register_types` ignores). -/
def lookupK (env : List Kind) (t : Nat) : Kind :=
  env.getD t Kind.scalar

/-- The traversal frontier contributed by one field: its declared type, plus,
for a ResolverField, its parameter types (`SchemaType.register_fields_type`,
schema.py lines 43-49). -/
def fieldTypes (f : FieldD) : List Nat :=
  f.ftype :: (if f.isResolver then f.params else [])

/-- The traversal frontier contributed by a field collection
(`param_return_types` in `SchemaType.register_fields_type`). -/
def fieldsFrontier (fs : List FieldD) : List Nat :=
  fs.foldr (fun f acc => fieldTypes f ++ acc) []

/-- The registrar state: `validated_type` is the visited set (discovery
order), `registered_type` the registry of named types, both initially empty
(`SchemaType.__new__`, schema.py lines 30 and 34). -/
structure St where
  validated_type : List Nat
  registered_type : List Nat
deriving DecidableEq

/-- Embedding of `SchemaType.register_types` (schema.py lines 51-76), with
explicit fuel; `none` means the fuel ran out.  For each frontier type:
skip it if already in `validated_type`, else append it to `validated_type`,
then classify it: Object/Input registers and recurses into its fields'
frontier; a typing-level union or list wrapper (`is_union(ptype) or
is_list(ptype)`) recurses into its `__args__` without registering; a named
Union registers and recurses into its members; an Interface registers and
recurses into its fields' frontier and then its subclasses; an Enum registers
and is a leaf; anything else is a basic type and is ignored. -/
def register_types (env : List Kind) : Nat → St → List Nat → Option St
  | _, s, [] => some s
  | 0, _, _ :: _ => none
  | fuel + 1, s, t :: rest =>
    if t ∈ s.validated_type then register_types env fuel s rest
    else
      match lookupK env t with
      | .object fs =>
        match register_types env fuel
            ⟨s.validated_type ++ [t], s.registered_type ++ [t]⟩ (fieldsFrontier fs) with
        | none => none
        | some s2 => register_types env fuel s2 rest
      | .optional inner =>
        match register_types env fuel
            ⟨s.validated_type ++ [t], s.registered_type⟩ [inner] with
        | none => none
        | some s2 => register_types env fuel s2 rest
      | .list inner =>
        match register_types env fuel
            ⟨s.validated_type ++ [t], s.registered_type⟩ [inner] with
        | none => none
        | some s2 => register_types env fuel s2 rest
      | .typingUnion args =>
        match register_types env fuel
            ⟨s.validated_type ++ [t], s.registered_type⟩ args with
        | none => none
        | some s2 => register_types env fuel s2 rest
      | .namedUnion members =>
        match register_types env fuel
            ⟨s.validated_type ++ [t], s.registered_type ++ [t]⟩ members with
        | none => none
        | some s2 => register_types env fuel s2 rest
      | .input fs =>
        match register_types env fuel
            ⟨s.validated_type ++ [t], s.registered_type ++ [t]⟩ (fieldsFrontier fs) with
        | none => none
        | some s2 => register_types env fuel s2 rest
      | .interface fs subs =>
        match register_types env fuel
            ⟨s.validated_type ++ [t], s.registered_type ++ [t]⟩ (fieldsFrontier fs) with
        | none => none
        | some s2 =>
          match register_types env fuel s2 subs with
          | none => none
          | some s3 => register_types env fuel s3 rest
      | .enum =>
        register_types env fuel
          ⟨s.validated_type ++ [t], s.registered_type ++ [t]⟩ rest
      | .scalar =>
        register_types env fuel ⟨s.validated_type ++ [t], s.registered_type⟩ rest

/-- Embedding of `SchemaType.register_fields_type` (schema.py lines 43-49): collect the
fields' declared and parameter types and hand them to `register_types`. -/
def register_fields_type (env : List Kind) (fuel : Nat) (s : St) (fields : List FieldD) :
    Option St :=
  register_types env fuel s (fieldsFrontier fields)

/-- The ids a type hands to the recursive `register_types`/
`register_fields_type` calls of its branch (its children in the type graph). -/
def childrenOf (env : List Kind) (t : Nat) : List Nat :=
  match lookupK env t with
  | .object fs => fieldsFrontier fs
  | .optional inner => [inner]
  | .list inner => [inner]
  | .typingUnion args => args
  | .namedUnion members => members
  | .input fs => fieldsFrontier fs
  | .interface fs subs => fieldsFrontier fs ++ subs
  | .enum => []
  | .scalar => []

/-- A named, registrable type: Object, named Union, Input, Interface or
Enum (the five declared-type buckets of the registry). -/
def isNamedB (env : List Kind) (t : Nat) : Bool :=
  match lookupK env t with
  | .object _ => true
  | .namedUnion _ => true
  | .input _ => true
  | .interface _ _ => true
  | .enum => true
  | _ => false

/-- A structural wrapper: a typing-level union/optional or a list. -/
def isWrapperB (env : List Kind) (t : Nat) : Bool :=
  match lookupK env t with
  | .optional _ => true
  | .list _ => true
  | .typingUnion _ => true
  | _ => false

/-- Number of environment ids not yet visited (the termination measure of the
traversal). -/
def unvis (env : List Kind) (v : List Nat) : Nat :=
  ((List.range env.length).filter (fun i => decide (i ∉ v))).length

/-- Length bound on the child frontier a single type can contribute. -/
def childBound : Kind → Nat
  | .object fs => (fieldsFrontier fs).length
  | .optional _ => 1
  | .list _ => 1
  | .typingUnion args => args.length
  | .namedUnion members => members.length
  | .input fs => (fieldsFrontier fs).length
  | .interface fs subs => max (fieldsFrontier fs).length subs.length
  | .enum => 0
  | .scalar => 0

/-- Largest child frontier any type of the environment contributes. -/
def maxChild (env : List Kind) : Nat :=
  env.foldr (fun k acc => max (childBound k) acc) 0

/-- Fuel that is always sufficient for `register_types` (proved below). -/
def suffFuel (env : List Kind) (frontier : List Nat) : Nat :=
  frontier.length + env.length * (maxChild env + 1)

/-- Run `register_types` from the empty state with sufficient fuel. -/
def regAll (env : List Kind) (frontier : List Nat) : Option St :=
  register_types env (suffFuel env frontier) ⟨[], []⟩ frontier

/-- Schema construction's registration entry point
(`cls.register_fields_type(cls.__fields__.values())`, schema.py line 36),
starting from the schema root's declared fields. -/
def registerSchema (env : List Kind) (rootFields : List FieldD) : Option St :=
  register_fields_type env (suffFuel env (fieldsFrontier rootFields)) ⟨[], []⟩ rootFields

/-- Reachability by following field types, resolver parameter types, wrapper
arguments, union members and interface implementors from a frontier. -/
inductive Reaches (env : List Kind) (frontier : List Nat) : Nat → Prop
  | here {t : Nat} : t ∈ frontier → Reaches env frontier t
  | step {t u : Nat} : Reaches env frontier t → u ∈ childrenOf env t →
      Reaches env frontier u

/-- State invariant: every registered type has been visited and is a named
type, and the registry holds no duplicates. -/
def Inv (env : List Kind) (s : St) : Prop :=
  (∀ x ∈ s.registered_type, x ∈ s.validated_type ∧ isNamedB env x = true) ∧
  s.registered_type.Nodup

/-- A visited type has been fully expanded: its children are visited and, if
it is a named type, it is in the registry. -/
def Processed (env : List Kind) (s' : St) (x : Nat) : Prop :=
  (∀ u ∈ childrenOf env x, u ∈ s'.validated_type) ∧
  (isNamedB env x = true → x ∈ s'.registered_type)

/-- Postcondition of one `register_types` call taking state `s` and frontier
`frontier` to state `s'`. -/
def RTSpec (env : List Kind) (s : St) (frontier : List Nat) (s' : St) : Prop :=
  (∀ x ∈ s.validated_type, x ∈ s'.validated_type) ∧
  (∀ x ∈ s.registered_type, x ∈ s'.registered_type) ∧
  (Inv env s → Inv env s') ∧
  (∀ x ∈ frontier, x ∈ s'.validated_type) ∧
  (∀ x ∈ s'.validated_type, x ∈ s.validated_type ∨ Processed env s' x)

/-- The set `SchemaType.VALID_ROOT_TYPES` (schema.py line 27). -/
def VALID_ROOT_TYPES : List String := ["query", "mutation"]

/-- The ValidationError raised by each of the four root-shape checks of
`SchemaType.validate` (schema.py lines 78-94), tagged by which check fired. -/
inductive VError where
  | invalidRootName
  | invalidFieldType
  | returnNotOptional
  | rootNotObject
deriving DecidableEq

/-- A value of the schema root's `__fields__` mapping: either a Field
descriptor or some other value (the `isinstance(field, Field)` check). -/
inductive RootAttr where
  | field (f : FieldD)
  | notAField
deriving DecidableEq

/-- Modelled from the spec (`pygraphy.utils.is_optional` is not part of the
given source): the annotation is an optional wrapper. -/
def is_optional (env : List Kind) (t : Nat) : Bool :=
  match lookupK env t with
  | Kind.optional _ => true
  | _ => false

/-- Embedding of `field.ftype.__args__[0]`: the inner type argument of an optional
wrapper (only consulted after `is_optional` holds). -/
def optionalInner (env : List Kind) (t : Nat) : Nat :=
  match lookupK env t with
  | Kind.optional inner => inner
  | _ => 0

/-- Embedding of the `isinstance(-, ObjectType)` check: the id denotes an Object class. -/
def is_object_type (env : List Kind) (t : Nat) : Bool :=
  match lookupK env t with
  | Kind.object _ => true
  | _ => false

/-- Embedding of `SchemaType.validate` (schema.py lines 78-95), restricted to the
root-shape loop; the trailing delegation to `ObjectType.validate` is an
external collaborator contract and is not modelled.  For each declared
top-level field, in declaration order: the name must be in
`VALID_ROOT_TYPES`, the value must be a Field descriptor, its declared type
must be optional-wrapped, and the unwrapped inner type must be an Object
type; the first violation raises. -/
def validate (env : List Kind) : List (String × RootAttr) → Except VError Unit
  | [] => Except.ok ()
  | (name, attr) :: rest =>
    if name ∉ VALID_ROOT_TYPES then Except.error VError.invalidRootName
    else
      match attr with
      | RootAttr.notAField => Except.error VError.invalidFieldType
      | RootAttr.field f =>
        if ¬ (is_optional env f.ftype = true) then Except.error VError.returnNotOptional
        else if ¬ (is_object_type env (optionalInner env f.ftype) = true) then
          Except.error VError.rootNotObject
        else validate env rest

/-- A root field entry that passes all four root-shape checks. -/
def goodRootEntry (env : List Kind) (p : String × RootAttr) : Prop :=
  p.1 ∈ VALID_ROOT_TYPES ∧
  ∃ f : FieldD, p.2 = RootAttr.field f ∧
    is_optional env f.ftype = true ∧
    is_object_type env (optionalInner env f.ftype) = true

/-- Operation kinds (`OperationType`) of the external query-language parser. -/
inductive OpKind where
  | query
  | mutation
  | subscription
deriving DecidableEq

/-- A top-level definition of the parsed document: an operation
(`OperationDefinitionNode`) with its kind and an opaque selection-set id, or
any other definition kind (e.g. a fragment). -/
inductive Defn where
  | operation (kind : OpKind) (selectionSet : Nat)
  | other
deriving DecidableEq

/-- Behaviour of the external object-resolution collaborator
(`obj.__resolve__(selections, error_collector)`): the errors it appends to
the mutable error collector, and either a returned value or a raised
exception (in which case `obj` keeps referring to the root instance).
Values and errors are opaque atoms. -/
instance : DecidableEq (Except Nat Nat) := fun x y =>
  match x, y with
  | Except.ok a, Except.ok b =>
    if h : a = b then isTrue (by rw [h]) else isFalse (by simp [h])
  | Except.error a, Except.error b =>
    if h : a = b then isTrue (by rw [h]) else isFalse (by simp [h])
  | Except.ok _, Except.error _ => isFalse (by simp)
  | Except.error _, Except.ok _ => isFalse (by simp)

structure ResolveRes where
  appended : List Nat
  outcome : Except Nat Nat
deriving DecidableEq

/-- Context lifecycle events of one `execute` call (`context.set` at line
135, `context.reset` at line 151). -/
inductive Event where
  | ctxSet
  | ctxReset
deriving DecidableEq

/-- What `Schema.execute` does for the caller: return the pair of the
`{errors, data}` envelope (handed to the external serializer) and the
success flag; fall off the loop and implicitly return `None`; or let an
uncaught KeyError propagate. -/
inductive ExecOut where
  | ret (errors : Option (List Nat)) (data : Nat) (success : Bool)
  | keyError (key : String)
  | noneReturned
deriving DecidableEq

/-- The mapping `Schema.FIELD_MAP` (schema.py lines 116-119). -/
def FIELD_MAP : OpKind → Option String
  | OpKind.query => some "query"
  | OpKind.mutation => some "mutation"
  | OpKind.subscription => none

/-- Body run for the selected operation (schema.py lines 131-157): look the
root field up in `__fields__` (a missing key raises KeyError before any
Context is bound), instantiate the root object, bind the Context, run
resolution with a fresh error collector, catch any raised exception by
logging it and appending it to the collector, reset the Context, and return
the envelope (`errors` is the collector if non-empty else `None`; `data` is
`obj`, which on an exception still refers to the root instance) together
with `success` (true iff the collector is empty). -/
def runOp (fields : String → Option Nat) (resolver : Nat → ResolveRes)
    (kind : OpKind) (sel : Nat) : ExecOut × List Event :=
  match FIELD_MAP kind with
  | none => (ExecOut.keyError "operation", [])
  | some fname =>
    match fields fname with
    | none => (ExecOut.keyError fname, [])
    | some rootInstance =>
      let r := resolver sel
      let collector : List Nat :=
        match r.outcome with
        | Except.ok _ => r.appended
        | Except.error e => r.appended ++ [e]
      let obj : Nat :=
        match r.outcome with
        | Except.ok v => v
        | Except.error _ => rootInstance
      (ExecOut.ret (if collector.isEmpty then none else some collector) obj
          collector.isEmpty,
        [Event.ctxSet, Event.ctxReset])

/-- Embedding of `Schema.execute` (schema.py lines 121-157) after the external parser has
produced the document's definitions: scan them in order, skip definitions
that are not operations and operations that are neither queries nor
mutations, and run the body for the first qualifying operation (the `return`
at line 157 ends the loop). -/
def execute (fields : String → Option Nat) (resolver : Nat → ResolveRes) :
    List Defn → ExecOut × List Event
  | [] => (ExecOut.noneReturned, [])
  | Defn.other :: rest => execute fields resolver rest
  | Defn.operation kind sel :: rest =>
    if kind = OpKind.query ∨ kind = OpKind.mutation then runOp fields resolver kind sel
    else execute fields resolver rest

/-- The first definition that is a query or mutation operation. -/
def firstOp : List Defn → Option (OpKind × Nat)
  | [] => none
  | Defn.other :: rest => firstOp rest
  | Defn.operation kind sel :: rest =>
    if kind = OpKind.query ∨ kind = OpKind.mutation then some (kind, sel)
    else firstOp rest

/-- Final contents of the error collector after resolution: what resolution
appended, plus the raised exception when resolution raised. -/
def collectorOf (r : ResolveRes) : List Nat :=
  match r.outcome with
  | Except.ok _ => r.appended
  | Except.error e => r.appended ++ [e]

/-- The `data` entry of the envelope: the resolved value, or the root
instance when resolution raised. -/
def dataOf (rootInstance : Nat) (r : ResolveRes) : Nat :=
  match r.outcome with
  | Except.ok v => v
  | Except.error _ => rootInstance

/-- Concrete type graph with diamond sharing and a cycle: the root object 0
has fields of types 1 and 2, both of which have a field of type 3, which
has a field of type 0 again. -/
def envD : List Kind :=
  [Kind.object [⟨1, false, []⟩, ⟨2, false, []⟩],
   Kind.object [⟨3, false, []⟩],
   Kind.object [⟨3, false, []⟩],
   Kind.object [⟨0, false, []⟩]]

/-- Concrete type graph with two mutually referencing objects. -/
def envC : List Kind :=
  [Kind.object [⟨1, false, []⟩], Kind.object [⟨0, false, []⟩]]

/-- Concrete type graph for a field typed list-of-optional-of-Enum: id 1 is
`List[Optional[X]]`, id 2 is `Optional[X]`, id 3 is the enum `X`. -/
def envW6 : List Kind := [Kind.scalar, Kind.list 2, Kind.optional 3, Kind.enum]

/-- Concrete type graph with a list wrapper (id 0) over an enum (id 1). -/
def envW8 : List Kind := [Kind.list 1, Kind.enum]

theorem rtspec_refl (env : List Kind) (s : St) : RTSpec env s [] s := by
  refine ⟨fun x hx => hx, fun x hx => hx, fun h => h, fun x hx => absurd hx ?_,
    fun x hx => Or.inl hx⟩
  simp

theorem rtspec_comp {env : List Kind} {sa sb s' : St} {f1 f2 : List Nat}
    (h1 : RTSpec env sa f1 sb) (h2 : RTSpec env sb f2 s') :
    RTSpec env sa (f1 ++ f2) s' := by
  obtain ⟨a1, b1, c1, d1, e1⟩ := h1
  obtain ⟨a2, b2, c2, d2, e2⟩ := h2
  refine ⟨fun x hx => a2 x (a1 x hx), fun x hx => b2 x (b1 x hx), fun hi => c2 (c1 hi),
    fun x hx => ?_, fun x hx => ?_⟩
  · rcases List.mem_append.mp hx with h | h
    · exact a2 x (d1 x h)
    · exact d2 x h
  · rcases e2 x hx with h | hp
    · rcases e1 x h with h' | hp'
      · exact Or.inl h'
      · exact Or.inr ⟨fun u hu => a2 u (hp'.1 u hu), fun hn => b2 x (hp'.2 hn)⟩
    · exact Or.inr hp

theorem rtspec_skip {env : List Kind} {s s' : St} {t : Nat} {rest : List Nat}
    (hv : t ∈ s.validated_type) (h : RTSpec env s rest s') :
    RTSpec env s (t :: rest) s' := by
  obtain ⟨a, b, c, d, e⟩ := h
  refine ⟨a, b, c, fun x hx => ?_, e⟩
  rcases List.mem_cons.mp hx with h' | h'
  · exact a x (h' ▸ hv)
  · exact d x h'

theorem rtspec_reg_cons {env : List Kind} {s s' : St} {t : Nat} {rest : List Nat}
    (hv : t ∉ s.validated_type) (hn : isNamedB env t = true)
    (h : RTSpec env ⟨s.validated_type ++ [t], s.registered_type ++ [t]⟩
        (childrenOf env t ++ rest) s') :
    RTSpec env s (t :: rest) s' := by
  obtain ⟨a, b, c, d, e⟩ := h
  refine ⟨fun x hx => a x (by simp [hx]), fun x hx => b x (by simp [hx]), fun hi => ?_,
    fun x hx => ?_, fun x hx => ?_⟩
  · refine c ⟨fun x hx => ?_, ?_⟩
    · rcases List.mem_append.mp hx with h' | h'
      · exact ⟨by simp [(hi.1 x h').1], (hi.1 x h').2⟩
      · have hx' : x = t := by simpa using h'
        subst hx'
        exact ⟨by simp, hn⟩
    · have htr : t ∉ s.registered_type := fun h' => hv (hi.1 t h').1
      simp [List.nodup_append, hi.2, htr]
  · rcases List.mem_cons.mp hx with h' | h'
    · exact h' ▸ a t (by simp)
    · exact d x (List.mem_append.mpr (Or.inr h'))
  · rcases e x hx with h' | hp
    · rcases List.mem_append.mp h' with h'' | h''
      · exact Or.inl h''
      · have hx' : x = t := by simpa using h''
        subst hx'
        exact Or.inr ⟨fun u hu => d u (List.mem_append.mpr (Or.inl hu)),
          fun _ => b x (by simp)⟩
    · exact Or.inr hp

theorem rtspec_plain_cons {env : List Kind} {s s' : St} {t : Nat} {rest : List Nat}
    (hv : t ∉ s.validated_type) (hn : isNamedB env t = false)
    (h : RTSpec env ⟨s.validated_type ++ [t], s.registered_type⟩
        (childrenOf env t ++ rest) s') :
    RTSpec env s (t :: rest) s' := by
  obtain ⟨a, b, c, d, e⟩ := h
  refine ⟨fun x hx => a x (by simp [hx]), b, fun hi => ?_,
    fun x hx => ?_, fun x hx => ?_⟩
  · refine c ⟨fun x hx => ⟨by simp [(hi.1 x hx).1], (hi.1 x hx).2⟩, hi.2⟩
  · rcases List.mem_cons.mp hx with h' | h'
    · exact h' ▸ a t (by simp)
    · exact d x (List.mem_append.mpr (Or.inr h'))
  · rcases e x hx with h' | hp
    · rcases List.mem_append.mp h' with h'' | h''
      · exact Or.inl h''
      · have hx' : x = t := by simpa using h''
        subst hx'
        exact Or.inr ⟨fun u hu => d u (List.mem_append.mpr (Or.inl hu)),
          fun hnx => nomatch hn.symm.trans hnx⟩
    · exact Or.inr hp

/-- Every successful `register_types` run satisfies `RTSpec`. -/
theorem register_types_rtspec (env : List Kind) :
    ∀ fuel s frontier s', register_types env fuel s frontier = some s' →
      RTSpec env s frontier s' := by
  intro fuel
  induction fuel with
  | zero =>
    intro s frontier s' heq
    cases frontier with
    | nil =>
      simp only [register_types, Option.some.injEq] at heq
      exact heq ▸ rtspec_refl env s
    | cons t rest => simp [register_types] at heq
  | succ fuel ih =>
    intro s frontier s' heq
    cases frontier with
    | nil =>
      simp only [register_types, Option.some.injEq] at heq
      exact heq ▸ rtspec_refl env s
    | cons t rest =>
      simp only [register_types] at heq
      split at heq
      · next hv => exact rtspec_skip hv (ih _ _ _ heq)
      · next hv =>
        split at heq
        · next fs hk =>
          split at heq
          · exact absurd heq (by simp)
          · next s2 hrec =>
            refine rtspec_reg_cons hv (by simp [isNamedB, hk]) ?_
            have hch : childrenOf env t = fieldsFrontier fs := by simp [childrenOf, hk]
            rw [hch]
            exact rtspec_comp (ih _ _ _ hrec) (ih _ _ _ heq)
        · next inner hk =>
          split at heq
          · exact absurd heq (by simp)
          · next s2 hrec =>
            refine rtspec_plain_cons hv (by simp [isNamedB, hk]) ?_
            have hch : childrenOf env t = [inner] := by simp [childrenOf, hk]
            rw [hch]
            exact rtspec_comp (ih _ _ _ hrec) (ih _ _ _ heq)
        · next inner hk =>
          split at heq
          · exact absurd heq (by simp)
          · next s2 hrec =>
            refine rtspec_plain_cons hv (by simp [isNamedB, hk]) ?_
            have hch : childrenOf env t = [inner] := by simp [childrenOf, hk]
            rw [hch]
            exact rtspec_comp (ih _ _ _ hrec) (ih _ _ _ heq)
        · next args hk =>
          split at heq
          · exact absurd heq (by simp)
          · next s2 hrec =>
            refine rtspec_plain_cons hv (by simp [isNamedB, hk]) ?_
            have hch : childrenOf env t = args := by simp [childrenOf, hk]
            rw [hch]
            exact rtspec_comp (ih _ _ _ hrec) (ih _ _ _ heq)
        · next members hk =>
          split at heq
          · exact absurd heq (by simp)
          · next s2 hrec =>
            refine rtspec_reg_cons hv (by simp [isNamedB, hk]) ?_
            have hch : childrenOf env t = members := by simp [childrenOf, hk]
            rw [hch]
            exact rtspec_comp (ih _ _ _ hrec) (ih _ _ _ heq)
        · next fs hk =>
          split at heq
          · exact absurd heq (by simp)
          · next s2 hrec =>
            refine rtspec_reg_cons hv (by simp [isNamedB, hk]) ?_
            have hch : childrenOf env t = fieldsFrontier fs := by simp [childrenOf, hk]
            rw [hch]
            exact rtspec_comp (ih _ _ _ hrec) (ih _ _ _ heq)
        · next fs subs hk =>
          split at heq
          · exact absurd heq (by simp)
          · next s2 hrec1 =>
            split at heq
            · exact absurd heq (by simp)
            · next s3 hrec2 =>
              refine rtspec_reg_cons hv (by simp [isNamedB, hk]) ?_
              have hch : childrenOf env t = fieldsFrontier fs ++ subs := by
                simp [childrenOf, hk]
              rw [hch, List.append_assoc]
              exact rtspec_comp (ih _ _ _ hrec1)
                (rtspec_comp (ih _ _ _ hrec2) (ih _ _ _ heq))
        · next hk =>
          refine rtspec_reg_cons hv (by simp [isNamedB, hk]) ?_
          have hch : childrenOf env t = [] := by simp [childrenOf, hk]
          rw [hch]
          exact ih _ _ _ heq
        · next hk =>
          refine rtspec_plain_cons hv (by simp [isNamedB, hk]) ?_
          have hch : childrenOf env t = [] := by simp [childrenOf, hk]
          rw [hch]
          exact ih _ _ _ heq

theorem unvis_le_of_subset {env : List Kind} {v v' : List Nat}
    (h : ∀ x ∈ v, x ∈ v') : unvis env v' ≤ unvis env v := by
  refine List.Sublist.length_le (List.monotone_filter_right _ ?_)
  intro a ha
  simp only [decide_eq_true_eq] at ha ⊢
  exact fun hav => ha (h a hav)

theorem unvis_append_lt {env : List Kind} {v : List Nat} {t : Nat}
    (ht : t < env.length) (hv : t ∉ v) :
    unvis env (v ++ [t]) < unvis env v := by
  have hsub : List.Sublist
      ((List.range env.length).filter (fun i => decide (i ∉ v ++ [t])))
      ((List.range env.length).filter (fun i => decide (i ∉ v))) := by
    refine List.monotone_filter_right _ ?_
    intro a ha
    simp only [decide_eq_true_eq, List.mem_append] at ha ⊢
    exact fun hav => ha (Or.inl hav)
  refine lt_of_le_of_ne hsub.length_le (fun hlen => ?_)
  have heq := hsub.eq_of_length hlen
  have ht1 : t ∈ (List.range env.length).filter (fun i => decide (i ∉ v)) := by
    simp [List.mem_filter, List.mem_range, ht, hv]
  rw [← heq] at ht1
  simp [List.mem_filter] at ht1

theorem lookupK_lt {env : List Kind} {t : Nat} (h : lookupK env t ≠ Kind.scalar) :
    t < env.length := by
  by_contra hge
  apply h
  unfold lookupK
  exact List.getD_eq_default _ _ (le_of_not_lt hge)

theorem lookupK_mem {env : List Kind} {t : Nat} (h : t < env.length) :
    lookupK env t ∈ env := by
  unfold lookupK
  rw [List.getD_eq_getElem _ _ h]
  exact List.getElem_mem h

theorem childBound_le_maxChild {env : List Kind} {k : Kind} (h : k ∈ env) :
    childBound k ≤ maxChild env := by
  induction env with
  | nil => cases h
  | cons a env ih =>
    rcases List.mem_cons.mp h with h' | h'
    · subst h'
      show childBound k ≤ max (childBound k) (maxChild env)
      exact le_max_left _ _
    · exact le_trans (ih h')
        (show maxChild env ≤ max (childBound a) (maxChild env) from le_max_right _ _)

/-- With enough fuel, `register_types` always completes: the visited set can
only grow within the finite environment, so the traversal bottoms out even on
cyclic and self-referential type graphs. -/
theorem register_types_enough_fuel (env : List Kind) :
    ∀ fuel s frontier,
      frontier.length + unvis env s.validated_type * (maxChild env + 1) ≤ fuel →
      ∃ s', register_types env fuel s frontier = some s' ∧
        ∀ x ∈ s.validated_type, x ∈ s'.validated_type := by
  intro fuel
  induction fuel with
  | zero =>
    intro s frontier hle
    cases frontier with
    | nil => exact ⟨s, rfl, fun x hx => hx⟩
    | cons t rest => simp at hle
  | succ fuel ih =>
    intro s frontier hle
    cases frontier with
    | nil => exact ⟨s, rfl, fun x hx => hx⟩
    | cons t rest =>
      simp only [List.length_cons] at hle
      by_cases hv : t ∈ s.validated_type
      · obtain ⟨s', heq, hsub⟩ := ih s rest (by omega)
        refine ⟨s', ?_, hsub⟩
        simp only [register_types, if_pos hv]
        exact heq
      · cases hk : lookupK env t with
        | object fs =>
          have htlt : t < env.length := lookupK_lt (by rw [hk]; simp)
          have hUlt := unvis_append_lt (v := s.validated_type) htlt hv
          have hcb := childBound_le_maxChild (lookupK_mem htlt)
          rw [hk] at hcb
          simp only [childBound] at hcb
          have hm2 : (unvis env (s.validated_type ++ [t]) + 1) * (maxChild env + 1) ≤
              unvis env s.validated_type * (maxChild env + 1) :=
            Nat.mul_le_mul_right _ hUlt
          have hm3 : (unvis env (s.validated_type ++ [t]) + 1) * (maxChild env + 1) =
              unvis env (s.validated_type ++ [t]) * (maxChild env + 1) +
                (maxChild env + 1) := by ring
          obtain ⟨s2, hrec, hsub1⟩ :=
            ih ⟨s.validated_type ++ [t], s.registered_type ++ [t]⟩ (fieldsFrontier fs)
              (by simp only []; omega)
          have hU2 : unvis env s2.validated_type ≤
              unvis env (s.validated_type ++ [t]) := unvis_le_of_subset hsub1
          have hm4 : unvis env s2.validated_type * (maxChild env + 1) ≤
              unvis env (s.validated_type ++ [t]) * (maxChild env + 1) :=
            Nat.mul_le_mul_right _ hU2
          obtain ⟨s', heq2, hsub2⟩ := ih s2 rest (by omega)
          refine ⟨s', ?_, fun x hx => hsub2 x (hsub1 x (by simp [hx]))⟩
          simp only [register_types, if_neg hv, hk]
          rw [hrec]
          exact heq2
        | optional inner =>
          have htlt : t < env.length := lookupK_lt (by rw [hk]; simp)
          have hUlt := unvis_append_lt (v := s.validated_type) htlt hv
          have hcb := childBound_le_maxChild (lookupK_mem htlt)
          rw [hk] at hcb
          simp only [childBound] at hcb
          have hm2 : (unvis env (s.validated_type ++ [t]) + 1) * (maxChild env + 1) ≤
              unvis env s.validated_type * (maxChild env + 1) :=
            Nat.mul_le_mul_right _ hUlt
          have hm3 : (unvis env (s.validated_type ++ [t]) + 1) * (maxChild env + 1) =
              unvis env (s.validated_type ++ [t]) * (maxChild env + 1) +
                (maxChild env + 1) := by ring
          obtain ⟨s2, hrec, hsub1⟩ :=
            ih ⟨s.validated_type ++ [t], s.registered_type⟩ [inner]
              (by simp only [List.length_singleton]; omega)
          have hU2 : unvis env s2.validated_type ≤
              unvis env (s.validated_type ++ [t]) := unvis_le_of_subset hsub1
          have hm4 : unvis env s2.validated_type * (maxChild env + 1) ≤
              unvis env (s.validated_type ++ [t]) * (maxChild env + 1) :=
            Nat.mul_le_mul_right _ hU2
          obtain ⟨s', heq2, hsub2⟩ := ih s2 rest (by omega)
          refine ⟨s', ?_, fun x hx => hsub2 x (hsub1 x (by simp [hx]))⟩
          simp only [register_types, if_neg hv, hk]
          rw [hrec]
          exact heq2
        | list inner =>
          have htlt : t < env.length := lookupK_lt (by rw [hk]; simp)
          have hUlt := unvis_append_lt (v := s.validated_type) htlt hv
          have hcb := childBound_le_maxChild (lookupK_mem htlt)
          rw [hk] at hcb
          simp only [childBound] at hcb
          have hm2 : (unvis env (s.validated_type ++ [t]) + 1) * (maxChild env + 1) ≤
              unvis env s.validated_type * (maxChild env + 1) :=
            Nat.mul_le_mul_right _ hUlt
          have hm3 : (unvis env (s.validated_type ++ [t]) + 1) * (maxChild env + 1) =
              unvis env (s.validated_type ++ [t]) * (maxChild env + 1) +
                (maxChild env + 1) := by ring
          obtain ⟨s2, hrec, hsub1⟩ :=
            ih ⟨s.validated_type ++ [t], s.registered_type⟩ [inner]
              (by simp only [List.length_singleton]; omega)
          have hU2 : unvis env s2.validated_type ≤
              unvis env (s.validated_type ++ [t]) := unvis_le_of_subset hsub1
          have hm4 : unvis env s2.validated_type * (maxChild env + 1) ≤
              unvis env (s.validated_type ++ [t]) * (maxChild env + 1) :=
            Nat.mul_le_mul_right _ hU2
          obtain ⟨s', heq2, hsub2⟩ := ih s2 rest (by omega)
          refine ⟨s', ?_, fun x hx => hsub2 x (hsub1 x (by simp [hx]))⟩
          simp only [register_types, if_neg hv, hk]
          rw [hrec]
          exact heq2
        | typingUnion args =>
          have htlt : t < env.length := lookupK_lt (by rw [hk]; simp)
          have hUlt := unvis_append_lt (v := s.validated_type) htlt hv
          have hcb := childBound_le_maxChild (lookupK_mem htlt)
          rw [hk] at hcb
          simp only [childBound] at hcb
          have hm2 : (unvis env (s.validated_type ++ [t]) + 1) * (maxChild env + 1) ≤
              unvis env s.validated_type * (maxChild env + 1) :=
            Nat.mul_le_mul_right _ hUlt
          have hm3 : (unvis env (s.validated_type ++ [t]) + 1) * (maxChild env + 1) =
              unvis env (s.validated_type ++ [t]) * (maxChild env + 1) +
                (maxChild env + 1) := by ring
          obtain ⟨s2, hrec, hsub1⟩ :=
            ih ⟨s.validated_type ++ [t], s.registered_type⟩ args
              (by simp only []; omega)
          have hU2 : unvis env s2.validated_type ≤
              unvis env (s.validated_type ++ [t]) := unvis_le_of_subset hsub1
          have hm4 : unvis env s2.validated_type * (maxChild env + 1) ≤
              unvis env (s.validated_type ++ [t]) * (maxChild env + 1) :=
            Nat.mul_le_mul_right _ hU2
          obtain ⟨s', heq2, hsub2⟩ := ih s2 rest (by omega)
          refine ⟨s', ?_, fun x hx => hsub2 x (hsub1 x (by simp [hx]))⟩
          simp only [register_types, if_neg hv, hk]
          rw [hrec]
          exact heq2
        | namedUnion members =>
          have htlt : t < env.length := lookupK_lt (by rw [hk]; simp)
          have hUlt := unvis_append_lt (v := s.validated_type) htlt hv
          have hcb := childBound_le_maxChild (lookupK_mem htlt)
          rw [hk] at hcb
          simp only [childBound] at hcb
          have hm2 : (unvis env (s.validated_type ++ [t]) + 1) * (maxChild env + 1) ≤
              unvis env s.validated_type * (maxChild env + 1) :=
            Nat.mul_le_mul_right _ hUlt
          have hm3 : (unvis env (s.validated_type ++ [t]) + 1) * (maxChild env + 1) =
              unvis env (s.validated_type ++ [t]) * (maxChild env + 1) +
                (maxChild env + 1) := by ring
          obtain ⟨s2, hrec, hsub1⟩ :=
            ih ⟨s.validated_type ++ [t], s.registered_type ++ [t]⟩ members
              (by simp only []; omega)
          have hU2 : unvis env s2.validated_type ≤
              unvis env (s.validated_type ++ [t]) := unvis_le_of_subset hsub1
          have hm4 : unvis env s2.validated_type * (maxChild env + 1) ≤
              unvis env (s.validated_type ++ [t]) * (maxChild env + 1) :=
            Nat.mul_le_mul_right _ hU2
          obtain ⟨s', heq2, hsub2⟩ := ih s2 rest (by omega)
          refine ⟨s', ?_, fun x hx => hsub2 x (hsub1 x (by simp [hx]))⟩
          simp only [register_types, if_neg hv, hk]
          rw [hrec]
          exact heq2
        | input fs =>
          have htlt : t < env.length := lookupK_lt (by rw [hk]; simp)
          have hUlt := unvis_append_lt (v := s.validated_type) htlt hv
          have hcb := childBound_le_maxChild (lookupK_mem htlt)
          rw [hk] at hcb
          simp only [childBound] at hcb
          have hm2 : (unvis env (s.validated_type ++ [t]) + 1) * (maxChild env + 1) ≤
              unvis env s.validated_type * (maxChild env + 1) :=
            Nat.mul_le_mul_right _ hUlt
          have hm3 : (unvis env (s.validated_type ++ [t]) + 1) * (maxChild env + 1) =
              unvis env (s.validated_type ++ [t]) * (maxChild env + 1) +
                (maxChild env + 1) := by ring
          obtain ⟨s2, hrec, hsub1⟩ :=
            ih ⟨s.validated_type ++ [t], s.registered_type ++ [t]⟩ (fieldsFrontier fs)
              (by simp only []; omega)
          have hU2 : unvis env s2.validated_type ≤
              unvis env (s.validated_type ++ [t]) := unvis_le_of_subset hsub1
          have hm4 : unvis env s2.validated_type * (maxChild env + 1) ≤
              unvis env (s.validated_type ++ [t]) * (maxChild env + 1) :=
            Nat.mul_le_mul_right _ hU2
          obtain ⟨s', heq2, hsub2⟩ := ih s2 rest (by omega)
          refine ⟨s', ?_, fun x hx => hsub2 x (hsub1 x (by simp [hx]))⟩
          simp only [register_types, if_neg hv, hk]
          rw [hrec]
          exact heq2
        | interface fs subs =>
          have htlt : t < env.length := lookupK_lt (by rw [hk]; simp)
          have hUlt := unvis_append_lt (v := s.validated_type) htlt hv
          have hcb := childBound_le_maxChild (lookupK_mem htlt)
          rw [hk] at hcb
          simp only [childBound, max_le_iff] at hcb
          have hm2 : (unvis env (s.validated_type ++ [t]) + 1) * (maxChild env + 1) ≤
              unvis env s.validated_type * (maxChild env + 1) :=
            Nat.mul_le_mul_right _ hUlt
          have hm3 : (unvis env (s.validated_type ++ [t]) + 1) * (maxChild env + 1) =
              unvis env (s.validated_type ++ [t]) * (maxChild env + 1) +
                (maxChild env + 1) := by ring
          obtain ⟨s2, hrec1, hsub1⟩ :=
            ih ⟨s.validated_type ++ [t], s.registered_type ++ [t]⟩ (fieldsFrontier fs)
              (by simp only []; have := hcb.1; omega)
          have hU2 : unvis env s2.validated_type ≤
              unvis env (s.validated_type ++ [t]) := unvis_le_of_subset hsub1
          have hm4 : unvis env s2.validated_type * (maxChild env + 1) ≤
              unvis env (s.validated_type ++ [t]) * (maxChild env + 1) :=
            Nat.mul_le_mul_right _ hU2
          obtain ⟨s3, hrec2, hsub2⟩ := ih s2 subs (by have := hcb.2; omega)
          have hU3 : unvis env s3.validated_type ≤ unvis env s2.validated_type :=
            unvis_le_of_subset hsub2
          have hm5 : unvis env s3.validated_type * (maxChild env + 1) ≤
              unvis env s2.validated_type * (maxChild env + 1) :=
            Nat.mul_le_mul_right _ hU3
          obtain ⟨s', heq2, hsub3⟩ := ih s3 rest (by omega)
          refine ⟨s', ?_, fun x hx => hsub3 x (hsub2 x (hsub1 x (by simp [hx])))⟩
          simp only [register_types, if_neg hv, hk]
          simp only [hrec1, hrec2]
          exact heq2
        | enum =>
          have hU1 : unvis env (s.validated_type ++ [t]) ≤
              unvis env s.validated_type :=
            unvis_le_of_subset (fun x hx => by simp [hx])
          have hm4 : unvis env (s.validated_type ++ [t]) * (maxChild env + 1) ≤
              unvis env s.validated_type * (maxChild env + 1) :=
            Nat.mul_le_mul_right _ hU1
          obtain ⟨s', heq, hsub⟩ :=
            ih ⟨s.validated_type ++ [t], s.registered_type ++ [t]⟩ rest
              (by simp only []; omega)
          refine ⟨s', ?_, fun x hx => hsub x (by simp [hx])⟩
          simp only [register_types, if_neg hv, hk]
          exact heq
        | scalar =>
          have hU1 : unvis env (s.validated_type ++ [t]) ≤
              unvis env s.validated_type :=
            unvis_le_of_subset (fun x hx => by simp [hx])
          have hm4 : unvis env (s.validated_type ++ [t]) * (maxChild env + 1) ≤
              unvis env s.validated_type * (maxChild env + 1) :=
            Nat.mul_le_mul_right _ hU1
          obtain ⟨s', heq, hsub⟩ :=
            ih ⟨s.validated_type ++ [t], s.registered_type⟩ rest
              (by simp only []; omega)
          refine ⟨s', ?_, fun x hx => hsub x (by simp [hx])⟩
          simp only [register_types, if_neg hv, hk]
          exact heq

/-- Everything ever visited stays inside any child-closed set containing the
frontier and the already-visited types. -/
theorem register_types_sound (env : List Kind) (R : Nat → Prop)
    (hR : ∀ t, R t → ∀ u ∈ childrenOf env t, R u) :
    ∀ fuel s frontier s', register_types env fuel s frontier = some s' →
      (∀ x ∈ frontier, R x) → (∀ x ∈ s.validated_type, R x) →
      ∀ x ∈ s'.validated_type, R x := by
  intro fuel
  induction fuel with
  | zero =>
    intro s frontier s' heq hf hs
    cases frontier with
    | nil =>
      simp only [register_types, Option.some.injEq] at heq
      exact heq ▸ hs
    | cons t rest => simp [register_types] at heq
  | succ fuel ih =>
    intro s frontier s' heq hf hs
    cases frontier with
    | nil =>
      simp only [register_types, Option.some.injEq] at heq
      exact heq ▸ hs
    | cons t rest =>
      simp only [register_types] at heq
      have hRt : R t := hf t (by simp)
      have hrest : ∀ x ∈ rest, R x := fun x hx => hf x (by simp [hx])
      split at heq
      · next hv => exact ih _ _ _ heq hrest hs
      · next hv =>
        have hs1 : ∀ x ∈ s.validated_type ++ [t], R x := by
          intro x hx
          rcases List.mem_append.mp hx with h' | h'
          · exact hs x h'
          · have hx' : x = t := by simpa using h'
            exact hx' ▸ hRt
        split at heq
        · next fs hk =>
          have hch : childrenOf env t = fieldsFrontier fs := by simp [childrenOf, hk]
          have hcf : ∀ u ∈ fieldsFrontier fs, R u :=
            fun u hu => hR t hRt u (by rw [hch]; exact hu)
          split at heq
          · exact absurd heq (by simp)
          · next s2 hrec =>
            exact ih _ _ _ heq hrest (ih _ _ _ hrec hcf hs1)
        · next inner hk =>
          have hch : childrenOf env t = [inner] := by simp [childrenOf, hk]
          have hcf : ∀ u ∈ [inner], R u :=
            fun u hu => hR t hRt u (by rw [hch]; exact hu)
          split at heq
          · exact absurd heq (by simp)
          · next s2 hrec =>
            exact ih _ _ _ heq hrest (ih _ _ _ hrec hcf hs1)
        · next inner hk =>
          have hch : childrenOf env t = [inner] := by simp [childrenOf, hk]
          have hcf : ∀ u ∈ [inner], R u :=
            fun u hu => hR t hRt u (by rw [hch]; exact hu)
          split at heq
          · exact absurd heq (by simp)
          · next s2 hrec =>
            exact ih _ _ _ heq hrest (ih _ _ _ hrec hcf hs1)
        · next args hk =>
          have hch : childrenOf env t = args := by simp [childrenOf, hk]
          have hcf : ∀ u ∈ args, R u :=
            fun u hu => hR t hRt u (by rw [hch]; exact hu)
          split at heq
          · exact absurd heq (by simp)
          · next s2 hrec =>
            exact ih _ _ _ heq hrest (ih _ _ _ hrec hcf hs1)
        · next members hk =>
          have hch : childrenOf env t = members := by simp [childrenOf, hk]
          have hcf : ∀ u ∈ members, R u :=
            fun u hu => hR t hRt u (by rw [hch]; exact hu)
          split at heq
          · exact absurd heq (by simp)
          · next s2 hrec =>
            exact ih _ _ _ heq hrest (ih _ _ _ hrec hcf hs1)
        · next fs hk =>
          have hch : childrenOf env t = fieldsFrontier fs := by simp [childrenOf, hk]
          have hcf : ∀ u ∈ fieldsFrontier fs, R u :=
            fun u hu => hR t hRt u (by rw [hch]; exact hu)
          split at heq
          · exact absurd heq (by simp)
          · next s2 hrec =>
            exact ih _ _ _ heq hrest (ih _ _ _ hrec hcf hs1)
        · next fs subs hk =>
          have hch : childrenOf env t = fieldsFrontier fs ++ subs := by
            simp [childrenOf, hk]
          have hcf : ∀ u ∈ fieldsFrontier fs, R u :=
            fun u hu => hR t hRt u (by rw [hch]; exact List.mem_append.mpr (Or.inl hu))
          have hsubs : ∀ u ∈ subs, R u :=
            fun u hu => hR t hRt u (by rw [hch]; exact List.mem_append.mpr (Or.inr hu))
          split at heq
          · exact absurd heq (by simp)
          · next s2 hrec1 =>
            split at heq
            · exact absurd heq (by simp)
            · next s3 hrec2 =>
              exact ih _ _ _ heq hrest (ih _ _ _ hrec2 hsubs (ih _ _ _ hrec1 hcf hs1))
        · next hk => exact ih _ _ _ heq hrest hs1
        · next hk => exact ih _ _ _ heq hrest hs1

theorem inv_empty (env : List Kind) : Inv env ⟨[], []⟩ :=
  ⟨fun x hx => absurd hx (by simp), List.nodup_nil⟩

theorem regAll_rtspec {env : List Kind} {frontier : List Nat} {s' : St}
    (h : regAll env frontier = some s') : RTSpec env ⟨[], []⟩ frontier s' :=
  register_types_rtspec env _ _ _ _ h

theorem regAll_inv {env : List Kind} {frontier : List Nat} {s' : St}
    (h : regAll env frontier = some s') : Inv env s' :=
  (regAll_rtspec h).2.2.1 (inv_empty env)

theorem regAll_reaches_validated {env : List Kind} {frontier : List Nat} {s' : St}
    (h : regAll env frontier = some s') :
    ∀ x, Reaches env frontier x → x ∈ s'.validated_type := by
  intro x hx
  induction hx with
  | here ht => exact (regAll_rtspec h).2.2.2.1 _ ht
  | step hr hc ihm =>
    rcases (regAll_rtspec h).2.2.2.2 _ ihm with h0 | hp
    · simp at h0
    · exact hp.1 _ hc

theorem regAll_named_mem_registered {env : List Kind} {frontier : List Nat} {s' : St}
    {x : Nat} (h : regAll env frontier = some s') (hr : Reaches env frontier x)
    (hn : isNamedB env x = true) : x ∈ s'.registered_type := by
  have hval := regAll_reaches_validated h x hr
  rcases (regAll_rtspec h).2.2.2.2 x hval with h0 | hp
  · simp at h0
  · exact hp.2 hn

theorem regAll_registered_reaches {env : List Kind} {frontier : List Nat} {s' : St}
    (h : regAll env frontier = some s') :
    ∀ x ∈ s'.registered_type, Reaches env frontier x ∧ isNamedB env x = true := by
  intro x hx
  have hinv := regAll_inv h
  refine ⟨?_, (hinv.1 x hx).2⟩
  exact register_types_sound env (Reaches env frontier)
    (fun t ht u hu => Reaches.step ht hu) _ _ _ _ h
    (fun y hy => Reaches.here hy) (fun y hy => absurd hy (by simp))
    x (hinv.1 x hx).1

theorem named_not_wrapper {env : List Kind} {t : Nat}
    (hn : isNamedB env t = true) : isWrapperB env t = false := by
  unfold isNamedB at hn
  unfold isWrapperB
  cases hk : lookupK env t <;> rw [hk] at hn <;> simp_all

/-- C2: the mutually recursive registration procedure
(`register_fields_type` / `register_types`) terminates on every type graph,
including cyclic and self-referential ones: with fuel at least `suffFuel`
the embedded recursion always reaches a result, because each candidate is
appended to `validated_type` before any recursion into its children and
already-visited candidates are skipped. -/
theorem register_types_terminates (env : List Kind) (frontier : List Nat) (fuel : Nat)
    (hfuel : suffFuel env frontier ≤ fuel) :
    ∃ s', register_types env fuel ⟨[], []⟩ frontier = some s' := by
  have huv : unvis env (St.mk [] []).validated_type = env.length := by
    simp [unvis]
  have hle : frontier.length +
      unvis env (St.mk [] []).validated_type * (maxChild env + 1) ≤ fuel := by
    rw [huv]
    unfold suffFuel at hfuel
    omega
  obtain ⟨s', heq, _⟩ := register_types_enough_fuel env fuel ⟨[], []⟩ frontier hle
  exact ⟨s', heq⟩

/-- Witness for C2 on the mutually cyclic graph `envC`. -/
theorem register_types_terminates_witness :
    suffFuel envC [0] ≤ 7 ∧
    ∃ s', register_types envC 7 ⟨[], []⟩ [0] = some s' :=
  ⟨by decide, register_types_terminates envC [0] 7 (by decide)⟩

/-- C1: after schema construction, `registered_type` contains each distinct
declared named type (Object, Union, Input, Interface, Enum) reachable from
the schema root exactly once — no duplicates — for every type graph,
including cyclic, mutually referencing and diamond-shaped ones; moreover
every registry entry is such a reachable named type. -/
theorem registered_type_exactly_once (env : List Kind) (rootFields : List FieldD)
    (s' : St) (h : registerSchema env rootFields = some s') :
    s'.registered_type.Nodup ∧
    (∀ t, Reaches env (fieldsFrontier rootFields) t → isNamedB env t = true →
      s'.registered_type.count t = 1) ∧
    (∀ t ∈ s'.registered_type,
      Reaches env (fieldsFrontier rootFields) t ∧ isNamedB env t = true) := by
  have h' : regAll env (fieldsFrontier rootFields) = some s' := h
  have hinv := regAll_inv h'
  exact ⟨hinv.2,
    fun t hr hn =>
      List.count_eq_one_of_mem hinv.2 (regAll_named_mem_registered h' hr hn),
    regAll_registered_reaches h'⟩

/-- Witness for C1 on the diamond-and-cycle graph `envD`: type 3 is reached
along two paths and registered once. -/
theorem registered_type_exactly_once_witness :
    registerSchema envD [⟨0, false, []⟩] = some ⟨[0, 1, 3, 2], [0, 1, 3, 2]⟩ ∧
    Reaches envD (fieldsFrontier [⟨0, false, []⟩]) 3 ∧ isNamedB envD 3 = true ∧
    (St.mk [0, 1, 3, 2] [0, 1, 3, 2]).registered_type.count 3 = 1 := by
  have h0 : Reaches envD (fieldsFrontier [⟨0, false, []⟩]) 0 :=
    Reaches.here (by decide)
  have h1 : Reaches envD (fieldsFrontier [⟨0, false, []⟩]) 1 :=
    Reaches.step h0 (by decide)
  have hreach : Reaches envD (fieldsFrontier [⟨0, false, []⟩]) 3 :=
    Reaches.step h1 (by decide)
  exact ⟨by decide, hreach, by decide,
    (registered_type_exactly_once envD [⟨0, false, []⟩] ⟨[0, 1, 3, 2], [0, 1, 3, 2]⟩
      (by decide)).2.1 3 hreach (by decide)⟩

/-- C6: structural wrappers are transparent for registration: no
list/optional/union wrapper entry is ever appended to `registered_type`, and
a named type reached through any wrapping appears in `registered_type`
exactly once. -/
theorem wrapper_transparency (env : List Kind) (rootFields : List FieldD)
    (s' : St) (h : registerSchema env rootFields = some s') :
    (∀ t ∈ s'.registered_type, isWrapperB env t = false) ∧
    (∀ t, Reaches env (fieldsFrontier rootFields) t → isNamedB env t = true →
      s'.registered_type.count t = 1) := by
  have h' : regAll env (fieldsFrontier rootFields) = some s' := h
  have hinv := regAll_inv h'
  exact ⟨fun t ht => named_not_wrapper (hinv.1 t ht).2,
    fun t hr hn =>
      List.count_eq_one_of_mem hinv.2 (regAll_named_mem_registered h' hr hn)⟩

/-- Witness for C6 on `envW6`: a root field typed `List[Optional[X]]` for an
enum `X` (id 3) registers `X` once and registers no wrapper. -/
theorem wrapper_transparency_witness :
    registerSchema envW6 [⟨1, false, []⟩] = some ⟨[1, 2, 3], [3]⟩ ∧
    Reaches envW6 (fieldsFrontier [⟨1, false, []⟩]) 3 ∧
    (St.mk [1, 2, 3] [3]).registered_type.count 3 = 1 ∧
    isWrapperB envW6 3 = false := by
  have h1 : Reaches envW6 (fieldsFrontier [⟨1, false, []⟩]) 1 :=
    Reaches.here (by decide)
  have h2 : Reaches envW6 (fieldsFrontier [⟨1, false, []⟩]) 2 :=
    Reaches.step h1 (by decide)
  have hreach : Reaches envW6 (fieldsFrontier [⟨1, false, []⟩]) 3 :=
    Reaches.step h2 (by decide)
  refine ⟨by decide, hreach, ?_, ?_⟩
  · exact (wrapper_transparency envW6 [⟨1, false, []⟩] ⟨[1, 2, 3], [3]⟩
      (by decide)).2 3 hreach (by decide)
  · exact (wrapper_transparency envW6 [⟨1, false, []⟩] ⟨[1, 2, 3], [3]⟩
      (by decide)).1 3 (by decide)

/-- C8 as stated is refuted: the registrar puts a list wrapper itself into
the visited set `validated_type` (schema.py line 55 appends every fresh
candidate before classifying it), so it is not true that only the wrapper's
argument types go through the visited-check. -/
theorem wrapper_not_in_visited_refuted :
    ¬ (∀ s', regAll envW8 [0] = some s' →
        ∀ t, isWrapperB envW8 t = true → t ∉ s'.validated_type) := by
  intro hcl
  exact hcl ⟨[0, 1], [1]⟩ (by decide) 0 (by decide) (by decide)

/-- C8 amended: when the registrar encounters a union or list/optional
wrapper, the wrapper is visited-checked and appended to `validated_type`
like any other candidate, but it is never appended to `registered_type`;
the recursion proceeds into the wrapper's inner type argument(s), which are
themselves visited. -/
theorem wrapper_visited_not_registered (env : List Kind) (frontier : List Nat)
    (s' : St) (t : Nat) (h : regAll env frontier = some s')
    (hw : isWrapperB env t = true) (hr : Reaches env frontier t) :
    t ∈ s'.validated_type ∧ t ∉ s'.registered_type ∧
    ∀ u ∈ childrenOf env t, u ∈ s'.validated_type := by
  have hval := regAll_reaches_validated h t hr
  have hinv := regAll_inv h
  refine ⟨hval, fun hreg => ?_, ?_⟩
  · have hnw := named_not_wrapper (hinv.1 t hreg).2
    rw [hw] at hnw
    exact nomatch hnw
  · rcases (regAll_rtspec h).2.2.2.2 t hval with h0 | hp
    · simp at h0
    · exact hp.1

/-- Witness for C8's amended statement on `envW8`: the list wrapper 0 is
visited, not registered, and its argument 1 is visited. -/
theorem wrapper_visited_not_registered_witness :
    regAll envW8 [0] = some ⟨[0, 1], [1]⟩ ∧ isWrapperB envW8 0 = true ∧
    (0 ∈ [0, 1] ∧ 0 ∉ [1] ∧ ∀ u ∈ childrenOf envW8 0, u ∈ [0, 1]) := by
  have h := wrapper_visited_not_registered envW8 [0] ⟨[0, 1], [1]⟩ 0
    (by decide) (by decide) (Reaches.here (by decide))
  exact ⟨by decide, by decide, h⟩

theorem execute_eq_firstOp (fields : String → Option Nat)
    (resolver : Nat → ResolveRes) (defs : List Defn) :
    execute fields resolver defs =
      match firstOp defs with
      | none => (ExecOut.noneReturned, [])
      | some (k, sel) => runOp fields resolver k sel := by
  induction defs with
  | nil => rfl
  | cons d rest ih =>
    cases d with
    | other => simpa [execute, firstOp] using ih
    | operation kind sel =>
      by_cases hk : kind = OpKind.query ∨ kind = OpKind.mutation
      · simp [execute, firstOp, hk]
      · simp [execute, firstOp, hk, ih]

/-- C7: `execute` runs exactly the first definition that is a query or
mutation operation: non-operation definitions and subscription operations
are skipped, and the whole result of `execute` is the body run on that
first qualifying operation, so later operations in the document are never
executed. -/
theorem execute_runs_first_operation_only (fields : String → Option Nat)
    (resolver : Nat → ResolveRes) (defs : List Defn) :
    execute fields resolver defs =
      match firstOp defs with
      | none => (ExecOut.noneReturned, [])
      | some (k, sel) => runOp fields resolver k sel :=
  execute_eq_firstOp fields resolver defs

/-- C9: when the document has no query or mutation operation, `execute`
completes without error but returns the implicit absent value (no envelope
and no success flag), and never binds a Context. -/
theorem execute_no_qualifying_operation (fields : String → Option Nat)
    (resolver : Nat → ResolveRes) (defs : List Defn)
    (h : firstOp defs = none) :
    execute fields resolver defs = (ExecOut.noneReturned, []) := by
  rw [execute_eq_firstOp, h]

/-- Witness for C9: a fragment followed by a subscription operation. -/
theorem execute_no_qualifying_operation_witness :
    firstOp [Defn.other, Defn.operation OpKind.subscription 0] = none ∧
    execute (fun _ => some 0) (fun _ => ⟨[], Except.ok 0⟩)
      [Defn.other, Defn.operation OpKind.subscription 0] =
      (ExecOut.noneReturned, []) :=
  ⟨rfl, execute_no_qualifying_operation _ _ _ rfl⟩

/-- C3: when root resolution raises, `execute` does not propagate the
exception: it is appended as exactly one entry after whatever the collector
already holds, and `execute` still returns an envelope/success pair (with
the Context bound and reset around resolution). -/
theorem execute_captures_resolution_error (fields : String → Option Nat)
    (resolver : Nat → ResolveRes) (defs : List Defn) (k : OpKind)
    (sel : Nat) (fname : String) (root : Nat) (errs : List Nat) (e : Nat)
    (h1 : firstOp defs = some (k, sel))
    (h2 : FIELD_MAP k = some fname)
    (h3 : fields fname = some root)
    (h4 : resolver sel = ⟨errs, Except.error e⟩) :
    execute fields resolver defs =
      (ExecOut.ret (some (errs ++ [e])) root false,
        [Event.ctxSet, Event.ctxReset]) := by
  have hcol : (errs ++ [e]).isEmpty = false := by cases errs <;> rfl
  rw [execute_eq_firstOp, h1]
  simp only [runOp, h2, h3, h4, hcol]
  simp

/-- Witness for C3: resolution appended error 5 and then raised 9. -/
theorem execute_captures_resolution_error_witness :
    firstOp [Defn.operation OpKind.query 2] = some (OpKind.query, 2) ∧
    FIELD_MAP OpKind.query = some "query" ∧
    (fun n => if n = "query" then some 7 else none) "query" = some 7 ∧
    (fun _ : Nat => (⟨[5], Except.error 9⟩ : ResolveRes)) 2 =
      ⟨[5], Except.error 9⟩ ∧
    execute (fun n => if n = "query" then some 7 else none)
      (fun _ => ⟨[5], Except.error 9⟩) [Defn.operation OpKind.query 2] =
      (ExecOut.ret (some [5, 9]) 7 false, [Event.ctxSet, Event.ctxReset]) :=
  ⟨rfl, rfl, by decide, rfl,
    execute_captures_resolution_error _ _ _ OpKind.query 2 "query" 7 [5] 9
      rfl rfl (by decide) rfl⟩

/-- C4: for every execution that reaches envelope construction, `errors` is
the collected list when non-empty and `None` when empty, `data` is the value
resolution produced, and `success` is true exactly when the collector is
empty. -/
theorem execute_envelope_shape (fields : String → Option Nat)
    (resolver : Nat → ResolveRes) (defs : List Defn) (k : OpKind)
    (sel : Nat) (fname : String) (root : Nat)
    (h1 : firstOp defs = some (k, sel))
    (h2 : FIELD_MAP k = some fname)
    (h3 : fields fname = some root) :
    execute fields resolver defs =
      (ExecOut.ret
        (if collectorOf (resolver sel) = [] then none
          else some (collectorOf (resolver sel)))
        (dataOf root (resolver sel))
        (decide (collectorOf (resolver sel) = [])),
        [Event.ctxSet, Event.ctxReset]) := by
  rw [execute_eq_firstOp, h1]
  simp only [runOp, h2, h3]
  rcases hr : resolver sel with ⟨errs, outcome⟩
  cases outcome with
  | ok v =>
    by_cases he : errs = []
    · simp [he, collectorOf, dataOf, hr]
    · simp [he, collectorOf, dataOf, hr, List.isEmpty_iff]
  | error e =>
    have hne : ¬ errs ++ [e] = [] := by simp
    have hcol : (errs ++ [e]).isEmpty = false := by cases errs <;> rfl
    simp [collectorOf, dataOf, hr, hne, hcol]

/-- Witness for C4: a clean resolution producing 42 with no errors. -/
theorem execute_envelope_shape_witness :
    firstOp [Defn.operation OpKind.query 3] = some (OpKind.query, 3) ∧
    FIELD_MAP OpKind.query = some "query" ∧
    (fun n => if n = "query" then some 7 else none) "query" = some 7 ∧
    execute (fun n => if n = "query" then some 7 else none)
      (fun _ => ⟨[], Except.ok 42⟩) [Defn.operation OpKind.query 3] =
      (ExecOut.ret none 42 true, [Event.ctxSet, Event.ctxReset]) := by
  refine ⟨rfl, rfl, by decide, ?_⟩
  have h := execute_envelope_shape (fun n => if n = "query" then some 7 else none)
    (fun _ => ⟨[], Except.ok 42⟩) [Defn.operation OpKind.query 3]
    OpKind.query 3 "query" 7 rfl rfl (by decide)
  simpa [collectorOf, dataOf] using h

/-- C10: for a schema root with no `mutation` field, running a document
whose first qualifying operation is a mutation raises an uncaught KeyError
from the `__fields__` lookup, propagated to the caller with no Context
bound and no envelope or error-collector entry produced. -/
theorem execute_missing_mutation_key_error (fields : String → Option Nat)
    (resolver : Nat → ResolveRes) (defs : List Defn) (sel : Nat)
    (h1 : firstOp defs = some (OpKind.mutation, sel))
    (h2 : fields "mutation" = none) :
    execute fields resolver defs = (ExecOut.keyError "mutation", []) := by
  rw [execute_eq_firstOp, h1]
  simp only [runOp, FIELD_MAP, h2]

/-- Witness for C10: a query-only root (whose shape the validator accepts)
and a document whose only operation is a mutation. -/
theorem execute_missing_mutation_key_error_witness :
    firstOp [Defn.operation OpKind.mutation 0] = some (OpKind.mutation, 0) ∧
    (fun n => if n = "query" then some 1 else none) "mutation" = none ∧
    validate [Kind.optional 1, Kind.object []]
      [("query", RootAttr.field ⟨0, false, []⟩)] = Except.ok () ∧
    execute (fun n => if n = "query" then some 1 else none)
      (fun _ => ⟨[], Except.ok 0⟩) [Defn.operation OpKind.mutation 0] =
      (ExecOut.keyError "mutation", []) :=
  ⟨rfl, by decide, rfl,
    execute_missing_mutation_key_error _ _ _ 0 rfl (by decide)⟩

/-- C5: the root-shape checks of `validate` raise a ValidationError exactly
when some declared top-level field has a name other than `query`/`mutation`,
is not a Field descriptor, has a non-optional-wrapped declared type, or has
a non-Object unwrapped inner type; a root whose fields all satisfy these
conditions passes the root-shape checks. -/
theorem validate_root_shape_iff (env : List Kind)
    (fields : List (String × RootAttr)) :
    validate env fields = Except.ok () ↔ ∀ p ∈ fields, goodRootEntry env p := by
  induction fields with
  | nil => simp [validate]
  | cons p rest ih =>
    obtain ⟨name, attr⟩ := p
    by_cases hname : name ∈ VALID_ROOT_TYPES
    · cases attr with
      | notAField =>
        simp [validate, hname, goodRootEntry]
      | field f =>
        by_cases hopt : is_optional env f.ftype = true
        · by_cases hobj : is_object_type env (optionalInner env f.ftype) = true
          · simp [validate, hname, hopt, hobj, goodRootEntry, ih]
          · simp [validate, hname, hopt, hobj, goodRootEntry]
        · simp [validate, hname, hopt, goodRootEntry]
    · simp [validate, hname, goodRootEntry]

/-- Witness for C5: a root with a single well-shaped `query` field passes
the root-shape checks. -/
theorem validate_root_shape_iff_witness :
    validate [Kind.optional 1, Kind.object []]
      [("query", RootAttr.field ⟨0, false, []⟩)] = Except.ok () :=
  (validate_root_shape_iff [Kind.optional 1, Kind.object []]
      [("query", RootAttr.field ⟨0, false, []⟩)]).mpr (by
    intro p hp
    have hp' : p = ("query", RootAttr.field ⟨0, false, []⟩) := by simpa using hp
    subst hp'
    exact ⟨by decide, ⟨0, false, []⟩, rfl, rfl, rfl⟩)

end Pygraphy
